import Mathlib

/-!
Shallow embedding of `src/models/encoders.py`.

Tensors are modelled over `ℝ`:
* a 1-d tensor is a `Vec` (`List ℝ`),
* a 2-d tensor is a `Mat` (list of rows),
* a 3-d tensor is a `Tensor3`, a 4-d tensor a `Tensor4`.

The gated convolutional stack `GatedConv2d` (from `models/conv_nets`) and the
pretrained resnet (from `models/load_pretrained_model`) live outside the
repository slice under verification; the encoders use them only as black-box
tensor functions, so they are modelled as abstract function fields.
-/

abbrev Vec := List ℝ
abbrev Mat := List Vec
abbrev Tensor3 := List Mat
abbrev Tensor4 := List Tensor3

/-- `torch.nn.Linear`: affine map given by a weight matrix (one row per output
feature) and a bias vector. -/
structure Linear where
  weight : List Vec
  bias : Vec

/-- Dot product of two vectors (rows are truncated to the common length, the
well-shaped case being the one the tensor framework accepts). -/
def dot (a b : Vec) : ℝ := (List.zipWith (fun x y => x * y) a b).sum

/-- Apply a linear layer to one input row. -/
def Linear.apply (l : Linear) (v : Vec) : Vec :=
  List.zipWith (fun w b => dot w v + b) l.weight l.bias

/-- Apply a linear layer rowwise to a batch. -/
def Linear.applyMat (l : Linear) (m : Mat) : Mat := m.map l.apply

/-- `torch.nn.Hardtanh(min_val, max_val)`: clamp a scalar. -/
def hardtanh (lo hi v : ℝ) : ℝ := max lo (min hi v)

/-- `torch.nn.ReLU`. -/
def relu (v : ℝ) : ℝ := max 0 v

/-- `nn.Sequential(nn.Linear(..), nn.Hardtanh(min_val=-6., max_val=2.))`:
the log-variance head used by every encoder in the module. -/
def logVarHead (l : Linear) (m : Mat) : Mat :=
  (l.applyMat m).map (fun r => r.map (hardtanh (-6) 2))

/-- `nn.Sequential(nn.Linear(..), nn.ReLU())`: the hidden blocks of the
residual encoder. -/
def reluHead (l : Linear) (m : Mat) : Mat :=
  (l.applyMat m).map (fun r => r.map relu)

/-- `torch.exp(0.5 * t)` elementwise: turn a log-variance tensor into a
standard-deviation tensor. -/
noncomputable def expStd (m : Mat) : Mat :=
  m.map (fun r => r.map (fun v => Real.exp (0.5 * v)))

/-- `torch.cat((a, b), dim=-1)` for 2-d tensors: rowwise concatenation. -/
def catRows (a b : Mat) : Mat := List.zipWith (fun r c => r ++ c) a b

/-- Flatten a 4-d tensor to its contiguous data. -/
def flatten4 (t : Tensor4) : Vec :=
  (t.map (fun c => (c.map List.flatten).flatten)).flatten

/-- `x.view((-1, h))` on a contiguous 4-d tensor: reshape the data into rows
of length `h`. -/
def view2 (h : ℕ) (t : Tensor4) : Mat := List.toChunks h (flatten4 t)

/-- `torch.nn.functional.one_hot(s, S)`: length-`S` 0/1 vector with a `1`
exactly at position `s`. -/
def one_hot (s S : ℕ) : Vec :=
  (List.range S).map (fun j => if j = s then 1 else 0)

/-- `func.one_hot(s, S).view((1, -1)).tile((B, 1))`: the one-hot row of `s`
replicated once per sample of the batch. -/
def condMatrix (S s B : ℕ) : Mat := List.replicate B (one_hot s S)

/-- `torch.zeros((b, n, l))`. -/
def zeros3 (b n l : ℕ) : Tensor3 :=
  List.replicate b (List.replicate n (List.replicate l (0 : ℝ)))

/-- `t[:, i, :] = m` for a 3-d tensor `t` and a 2-d tensor `m`: in every
batch plane, replace row `i` by the corresponding row of `m`. -/
def setSlice (t : Tensor3) (i : ℕ) (m : Mat) : Tensor3 :=
  List.zipWith (fun plane row => plane.set i row) t m

/-- Weight data for one `nn.Linear` (the values the framework draws at
construction time; shapes are fixed by the layer dimensions). -/
structure LinearWeights where
  w : ℕ → ℕ → ℝ
  b : ℕ → ℝ

/-- `nn.Linear(in_features=inF, out_features=outF)`: the weight matrix has
shape `(outF, inF)` and the bias has length `outF`. -/
def mkLinear (inF outF : ℕ) (lw : LinearWeights) : Linear where
  weight := (List.range outF).map (fun i => (List.range inF).map (lw.w i))
  bias := (List.range outF).map lw.b

/-! ## `GatedConv2dEncoder` -/

/-- `GatedConv2dEncoder` (module state after `__init__`).  The gated
convolutional stack is kept abstract: its definition lives outside this
repository slice. -/
structure GatedConv2dEncoder where
  h : ℕ
  S : ℕ
  conv_layer : Tensor4 → Tensor4
  mu_enc : Linear
  log_var_enc : Linear

/-- `GatedConv2dEncoder.__init__(n_dims, S, latent_dims, h, ...)`:
`mu_enc = nn.Linear(h + S, latent_dims)` and
`log_var_enc = nn.Sequential(nn.Linear(h + S, latent_dims), nn.Hardtanh(-6, 2))`.
The random weight draws are the `LinearWeights` parameters. -/
def GatedConv2dEncoder.init (S latent_dims h : ℕ) (conv : Tensor4 → Tensor4)
    (muW lvW : LinearWeights) : GatedConv2dEncoder where
  h := h
  S := S
  conv_layer := conv
  mu_enc := mkLinear (h + S) latent_dims muW
  log_var_enc := mkLinear (h + S) latent_dims lvW

/-- `GatedConv2dEncoder.forward(x, component)` (lines 30-37):
`x = conv_layer(x); x = x.view((-1, h)); x = cat((x, component), dim=-1);
mu = mu_enc(x); std = exp(0.5 * log_var_enc(x)); return mu, std`. -/
noncomputable def GatedConv2dEncoder.forward (e : GatedConv2dEncoder) (x : Tensor4)
    (component : Mat) : Mat × Mat :=
  let x1 := e.conv_layer x
  let x2 := view2 e.h x1
  let x3 := catRows x2 component
  let mu := e.mu_enc.applyMat x3
  let std := expStd (logVarHead e.log_var_enc x3)
  (mu, std)

/-! ## `GatedConv2dResidualEncoder` -/

/-- `GatedConv2dResidualEncoder` (module state after `__init__`).  Its
`forward` never touches the optional convolution stack (only the ensemble
wrappers read `self.encoder.conv_layer`), so the convolution is carried by the
wrapper model instead of this structure. -/
structure GatedConv2dResidualEncoder where
  h : ℕ
  S : ℕ
  mu_0 : Linear
  mu_1 : Linear
  mu_enc : Linear
  log_var_0 : Linear
  log_var_1 : Linear
  log_var_enc : Linear

/-- `GatedConv2dResidualEncoder.__init__` (lines 41-78): the `*_0` blocks map
`h + S` features to `latent_dims`, the `*_1` blocks and the output heads map
`h + S + latent_dims` features to `latent_dims`; the hidden blocks end in
`ReLU` and `log_var_enc` ends in `Hardtanh(-6, 2)`. -/
def GatedConv2dResidualEncoder.init (S latent_dims h : ℕ)
    (m0 m1 mE v0 v1 vE : LinearWeights) : GatedConv2dResidualEncoder where
  h := h
  S := S
  mu_0 := mkLinear (h + S) latent_dims m0
  mu_1 := mkLinear (h + S + latent_dims) latent_dims m1
  mu_enc := mkLinear (h + S + latent_dims) latent_dims mE
  log_var_0 := mkLinear (h + S) latent_dims v0
  log_var_1 := mkLinear (h + S + latent_dims) latent_dims v1
  log_var_enc := mkLinear (h + S + latent_dims) latent_dims vE

/-- `GatedConv2dResidualEncoder.forward(x_s)` (lines 80-93); note the single
tensor parameter `x_s`, the representation with the component masking already
concatenated. -/
noncomputable def GatedConv2dResidualEncoder.forward (e : GatedConv2dResidualEncoder)
    (x_s : Mat) : Mat × Mat :=
  let a0 := reluHead e.mu_0 x_s
  let a1 := catRows x_s a0
  let a2 := reluHead e.mu_1 a1
  let a3 := catRows x_s a2
  let mu := e.mu_enc.applyMat a3
  let b0 := reluHead e.log_var_0 x_s
  let b1 := catRows x_s b0
  let b2 := reluHead e.log_var_1 b1
  let b3 := catRows x_s b2
  let std := expStd (logVarHead e.log_var_enc b3)
  (mu, std)

/-! ## `EnsembleGatedConv2dEncoders` -/

/-- The encoder object stored in `self.encoder` of
`EnsembleGatedConv2dEncoders`: a `GatedConv2dEncoder` when
`residuals=False`, a `GatedConv2dResidualEncoder` (together with its attached
gated convolution stack, read by the wrapper as `self.encoder.conv_layer`)
when `residuals=True`. -/
inductive GEncoder where
  | plain (e : GatedConv2dEncoder)
  | res (conv : Tensor4 → Tensor4) (e : GatedConv2dResidualEncoder)

/-- `self.encoder.conv_layer`. -/
def GEncoder.convApply : GEncoder → Tensor4 → Tensor4
  | .plain e => e.conv_layer
  | .res conv _ => conv

/-- `self.encoder.h`. -/
def GEncoder.hval : GEncoder → ℕ
  | .plain e => e.h
  | .res _ e => e.h

/-- `self.encoder.mu_enc` (a bare `nn.Linear` in both classes). -/
def GEncoder.muEncL : GEncoder → Linear
  | .plain e => e.mu_enc
  | .res _ e => e.mu_enc

/-- `self.encoder.log_var_enc` (a `Linear` followed by `Hardtanh(-6, 2)` in
both classes). -/
def GEncoder.logVarEncL : GEncoder → Linear
  | .plain e => e.log_var_enc
  | .res _ e => e.log_var_enc

/-- `self.encoder(x_s)`: the single-tensor call made in the `residuals`
branch of the ensemble loop.  Only the residual encoder accepts a single
tensor; handing a `GatedConv2dEncoder` one argument is an arity error in the
source, and that combination is never produced by any constructor, so the
`plain` case is given the empty output. -/
noncomputable def GEncoder.callRes : GEncoder → Mat → Mat × Mat
  | .res _ e => fun x_s => e.forward x_s
  | .plain _ => fun _ => ([], [])

/-- `EnsembleGatedConv2dEncoders` (module state after `__init__`). -/
structure EnsembleGatedConv2dEncoders where
  S : ℕ
  latent_dims : ℕ
  residuals : Bool
  encoder : GEncoder

/-- The six random weight draws of a `GatedConv2dResidualEncoder`. -/
structure ResWeights where
  m0 : LinearWeights
  m1 : LinearWeights
  mE : LinearWeights
  v0 : LinearWeights
  v1 : LinearWeights
  vE : LinearWeights

/-- The two random weight draws of a `GatedConv2dEncoder`. -/
structure PlainWeights where
  mu : LinearWeights
  lv : LinearWeights

/-- `EnsembleGatedConv2dEncoders.__init__` (lines 97-107): store `S`,
`latent_dims` and `residuals`, and build the one sub-encoder selected by the
`residuals` flag (its random weight draws, and the gated convolution stack,
are parameters of the model). -/
def EnsembleGatedConv2dEncoders.init (latent_dims h S : ℕ) (residuals : Bool)
    (conv : Tensor4 → Tensor4) (rw : ResWeights) (pw : PlainWeights) :
    EnsembleGatedConv2dEncoders where
  S := S
  latent_dims := latent_dims
  residuals := residuals
  encoder :=
    if residuals then
      .res conv (GatedConv2dResidualEncoder.init S latent_dims h rw.m0 rw.m1
        rw.mE rw.v0 rw.v1 rw.vE)
    else
      .plain (GatedConv2dEncoder.init S latent_dims h conv pw.mu pw.lv)

/-- Indices of the active components, `torch.where(components == 1)[0]`:
the positions holding the value `1`, in increasing order. -/
def activeIndices (components : List ℤ) : List ℕ :=
  ((components.enum).filter (fun p => p.2 = 1)).map Prod.fst

/-- One iteration of the ensemble loop (lines 116-122) for active component
index `s`, given the shared features `F` (the convolved, flattened input):
build the tiled one-hot, concatenate, and run the branch selected by
`self.residuals`. -/
noncomputable def muStdBodyGated (E : EnsembleGatedConv2dEncoders) (F : Mat)
    (s : ℕ) : Mat × Mat :=
  let component := condMatrix E.S s F.length
  let x_s := catRows F component
  if E.residuals then
    E.encoder.callRes x_s
  else
    (E.encoder.muEncL.applyMat x_s, expStd (logVarHead E.encoder.logVarEncL x_s))

/-- The ensemble loop: fold the slice assignments
`mu[:, i, :], std[:, i, :] = ...` over the enumerated active indices. -/
def ensembleLoop (body : ℕ → Mat × Mat) (ps : List (ℕ × ℕ))
    (acc : Tensor3 × Tensor3) : Tensor3 × Tensor3 :=
  ps.foldl
    (fun a p => (setSlice a.1 p.1 (body p.2).1, setSlice a.2 p.1 (body p.2).2))
    acc

/-- `EnsembleGatedConv2dEncoders.forward(x, components)` (lines 109-123):
`n_A = sum(components)`; zero tensors of shape `(x.size(0), n_A, latent_dims)`;
`x = encoder.conv_layer(x); x = x.view((-1, encoder.h))`; then the loop over
the enumerated active indices. -/
noncomputable def EnsembleGatedConv2dEncoders.forward
    (E : EnsembleGatedConv2dEncoders) (x : Tensor4) (components : List ℤ) :
    Tensor3 × Tensor3 :=
  let nA := components.sum.toNat
  let mu := zeros3 x.length nA E.latent_dims
  let std := zeros3 x.length nA E.latent_dims
  let F := view2 E.encoder.hval (E.encoder.convApply x)
  ensembleLoop (muStdBodyGated E F) (activeIndices components).enum (mu, std)

/-! ## `ResNetEncoder` and `EnsembleResnetEncoders` -/

/-- `ResNetEncoder` (lines 126-132): a `GatedConv2dResidualEncoder` built
with `h=64` and `conv_layer=False`, whose `conv_layer` attribute is then set
to a pretrained resnet (code outside this repository slice, hence an abstract
function to a 2-d feature tensor). -/
structure ResNetEncoder where
  S : ℕ
  latent_dims : ℕ
  conv_layer : Tensor4 → Mat
  core : GatedConv2dResidualEncoder

/-- `ResNetEncoder.__init__`: `super().__init__(n_dims=None, S=S, h=64,
latent_dims=latent_dims, conv_layer=False)`, then attach the pretrained
resnet. -/
def ResNetEncoder.init (S latent_dims : ℕ) (resnet : Tensor4 → Mat)
    (rw : ResWeights) : ResNetEncoder where
  S := S
  latent_dims := latent_dims
  conv_layer := resnet
  core := GatedConv2dResidualEncoder.init S latent_dims 64 rw.m0 rw.m1 rw.mE
    rw.v0 rw.v1 rw.vE

/-- `EnsembleResnetEncoders` (module state after `__init__`). -/
structure EnsembleResnetEncoders where
  S : ℕ
  latent_dims : ℕ
  residuals : Bool
  encoder : ResNetEncoder

/-- `EnsembleResnetEncoders.__init__` (lines 136-138): call the parent
constructor with `h=64` and the `residuals` parameter left at its default
`True` (so the parent also builds a throwaway residual sub-encoder, whose
weight draws and convolution stack are the `discarded*` parameters), then
overwrite `self.encoder` with a `ResNetEncoder`. -/
def EnsembleResnetEncoders.init (latent_dims S : ℕ) (resnet : Tensor4 → Mat)
    (rw : ResWeights) (discardedConv : Tensor4 → Tensor4)
    (discardedRw : ResWeights) (discardedPw : PlainWeights) :
    EnsembleResnetEncoders :=
  let parent := EnsembleGatedConv2dEncoders.init latent_dims 64 S true
    discardedConv discardedRw discardedPw
  { S := parent.S
    latent_dims := parent.latent_dims
    residuals := parent.residuals
    encoder := ResNetEncoder.init S latent_dims resnet rw }

/-- One iteration of the `EnsembleResnetEncoders` loop (lines 147-153). -/
noncomputable def muStdBodyResnet (E : EnsembleResnetEncoders) (F : Mat)
    (s : ℕ) : Mat × Mat :=
  let component := condMatrix E.S s F.length
  let x_s := catRows F component
  if E.residuals then
    E.encoder.core.forward x_s
  else
    (E.encoder.core.mu_enc.applyMat x_s,
      expStd (logVarHead E.encoder.core.log_var_enc x_s))

/-- `EnsembleResnetEncoders.forward(x, components)` (lines 140-154): the
input runs through the pretrained backbone first (no `view`), and `x.size(0)`
is read from the backbone output. -/
noncomputable def EnsembleResnetEncoders.forward (E : EnsembleResnetEncoders)
    (x : Tensor4) (components : List ℤ) : Tensor3 × Tensor3 :=
  let F := E.encoder.conv_layer x
  let nA := components.sum.toNat
  let mu := zeros3 F.length nA E.latent_dims
  let std := zeros3 F.length nA E.latent_dims
  ensembleLoop (muStdBodyResnet E F) (activeIndices components).enum (mu, std)

/-! ## Facts about the active-index list -/

lemma mem_enumFrom_le {α : Type} (cs : List α) (k : ℕ) (p : ℕ × α)
    (hp : p ∈ cs.enumFrom k) : k ≤ p.1 := by
  induction cs generalizing k with
  | nil => simp [List.enumFrom] at hp
  | cons c cs ih =>
    rcases List.mem_cons.mp hp with h | h
    · subst h; exact Nat.le_refl k
    · exact Nat.le_of_succ_le (ih (k + 1) h)

lemma enumFrom_pairwise_fst_lt {α : Type} (cs : List α) (k : ℕ) :
    (cs.enumFrom k).Pairwise (fun p q => p.1 < q.1) := by
  induction cs generalizing k with
  | nil => simp
  | cons c cs ih =>
    refine List.Pairwise.cons ?_ (ih (k + 1))
    intro q hq
    have := mem_enumFrom_le cs (k + 1) q hq
    omega

/-- `torch.where(components == 1)[0]` yields strictly increasing indices. -/
lemma activeIndices_pairwise (cs : List ℤ) :
    (activeIndices cs).Pairwise (fun a b => a < b) := by
  unfold activeIndices
  exact (List.pairwise_map).mpr ((enumFrom_pairwise_fst_lt cs 0).filter _)

lemma enumFrom_filter_snd_length {α : Type} (p : α → Bool) (cs : List α) :
    ∀ k, ((cs.enumFrom k).filter (fun q => p q.2)).length = cs.countP p := by
  induction cs with
  | nil => intro k; simp
  | cons c cs ih =>
    intro k
    rw [show (c :: cs).enumFrom k = (k, c) :: cs.enumFrom (k + 1) from rfl,
      List.filter_cons, List.countP_cons]
    by_cases hc : p c
    · simp [hc, ih]
    · simp [hc, ih]

lemma sum_eq_countP_of_01 (cs : List ℤ) (h01 : ∀ c ∈ cs, c = 0 ∨ c = 1) :
    cs.sum = (cs.countP (fun c => c = 1) : ℤ) := by
  induction cs with
  | nil => simp
  | cons c cs ih =>
    have hrest := ih (fun d hd => h01 d (List.mem_cons_of_mem c hd))
    rcases h01 c (List.mem_cons_self c cs) with rfl | rfl
    · rw [List.sum_cons, List.countP_cons]
      simp [hrest]
    · rw [List.sum_cons, List.countP_cons]
      push_cast
      rw [hrest]
      simp
      ring

/-- For a 0/1 components vector, the number of active indices is exactly
`torch.sum(components)`. -/
lemma activeIndices_length (cs : List ℤ) (h01 : ∀ c ∈ cs, c = 0 ∨ c = 1) :
    (activeIndices cs).length = cs.sum.toNat := by
  unfold activeIndices
  rw [List.length_map,
    show cs.enum = cs.enumFrom 0 from rfl,
    enumFrom_filter_snd_length (fun c => decide (c = 1)) cs 0,
    sum_eq_countP_of_01 cs h01]
  simp

lemma mem_enumFrom_fst_lt {α : Type} (cs : List α) (k : ℕ) (p : ℕ × α)
    (hp : p ∈ cs.enumFrom k) : p.1 < k + cs.length := by
  induction cs generalizing k with
  | nil => simp [List.enumFrom] at hp
  | cons c cs ih =>
    rcases List.mem_cons.mp hp with h | h
    · subst h; simp
    · have := ih (k + 1) h
      simp only [List.length_cons]
      omega

/-- Every active index is a position of the components vector. -/
lemma activeIndices_mem_lt (cs : List ℤ) (a : ℕ) (ha : a ∈ activeIndices cs) :
    a < cs.length := by
  unfold activeIndices at ha
  obtain ⟨p, hp, hpa⟩ := List.mem_map.mp ha
  have := mem_enumFrom_fst_lt cs 0 p (List.mem_of_mem_filter hp)
  omega

/-! ## Indexed-access helper lemmas -/

lemma getD_map_lt {α β : Type} (f : α → β) (l : List α) (n : ℕ)
    (hn : n < l.length) (d : β) (da : α) :
    (l.map f).getD n d = f (l.getD n da) := by
  induction l generalizing n with
  | nil => simp at hn
  | cons a l ih =>
    cases n with
    | zero => rfl
    | succ n => exact ih n (by simpa using hn)

lemma getD_zipWith_lt {α β γ : Type} (f : α → β → γ) (xs : List α)
    (ys : List β) (n : ℕ) (hx : n < xs.length) (hy : n < ys.length)
    (d : γ) (dx : α) (dy : β) :
    (List.zipWith f xs ys).getD n d = f (xs.getD n dx) (ys.getD n dy) := by
  induction xs generalizing ys n with
  | nil => simp at hx
  | cons a xs ih =>
    cases ys with
    | nil => simp at hy
    | cons b ys =>
      cases n with
      | zero => rfl
      | succ n => exact ih ys n (by simpa using hx) (by simpa using hy)

lemma getD_set_self {α : Type} (l : List α) (i : ℕ) (a : α) (d : α)
    (hi : i < l.length) : (l.set i a).getD i d = a := by
  induction l generalizing i with
  | nil => simp at hi
  | cons b l ih =>
    cases i with
    | zero => rfl
    | succ i => exact ih i (by simpa using hi)

lemma getD_set_of_ne {α : Type} (l : List α) (i j : ℕ) (a : α) (d : α)
    (hij : j ≠ i) : (l.set i a).getD j d = l.getD j d := by
  induction l generalizing i j with
  | nil => simp
  | cons b l ih =>
    cases i with
    | zero =>
      cases j with
      | zero => exact absurd rfl hij
      | succ j => rfl
    | succ i =>
      cases j with
      | zero => rfl
      | succ j => exact ih i j (fun h => hij (by simp [h]))

lemma getD_replicate_lt {α : Type} (n j : ℕ) (a d : α) (hj : j < n) :
    (List.replicate n a).getD j d = a := by
  induction n generalizing j with
  | zero => simp at hj
  | succ n ih =>
    cases j with
    | zero => rfl
    | succ j => exact ih j (by omega)

/-! ## Shape lemmas for the layer operations -/

lemma Linear.apply_length (l : Linear) (v : Vec) :
    (l.apply v).length = min l.weight.length l.bias.length := by
  simp [Linear.apply]

lemma mkLinear_apply_length (inF outF : ℕ) (lw : LinearWeights) (v : Vec) :
    ((mkLinear inF outF lw).apply v).length = outF := by
  simp [Linear.apply_length, mkLinear]

lemma Linear.applyMat_length (l : Linear) (m : Mat) :
    (l.applyMat m).length = m.length := by
  simp [Linear.applyMat]

lemma logVarHead_length (l : Linear) (m : Mat) :
    (logVarHead l m).length = m.length := by
  simp [logVarHead, Linear.applyMat]

lemma reluHead_length (l : Linear) (m : Mat) :
    (reluHead l m).length = m.length := by
  simp [reluHead, Linear.applyMat]

lemma expStd_length (m : Mat) : (expStd m).length = m.length := by
  simp [expStd]

lemma catRows_length (a b : Mat) :
    (catRows a b).length = min a.length b.length := by
  simp [catRows]

lemma condMatrix_length (S s B : ℕ) : (condMatrix S s B).length = B := by
  simp [condMatrix]

lemma applyMat_getD (l : Linear) (m : Mat) (b : ℕ) (hb : b < m.length) :
    (l.applyMat m).getD b [] = l.apply (m.getD b []) :=
  getD_map_lt _ m b hb [] []

lemma logVarHead_getD (l : Linear) (m : Mat) (b : ℕ) (hb : b < m.length) :
    (logVarHead l m).getD b []
      = (l.apply (m.getD b [])).map (hardtanh (-6) 2) := by
  unfold logVarHead
  rw [getD_map_lt _ _ b (by simpa [Linear.applyMat_length] using hb) [] [],
    applyMat_getD _ _ _ hb]

lemma expStd_getD (m : Mat) (b : ℕ) (hb : b < m.length) :
    (expStd m).getD b []
      = (m.getD b []).map (fun v => Real.exp (0.5 * v)) := by
  unfold expStd
  rw [getD_map_lt _ _ b hb [] []]

/-! ## The slice-assignment fold -/

/-- The single-tensor version of the ensemble loop: fold
`a[:, i, :] = g s` over a list of pairs `(i, s)`. -/
def sliceFold (g : ℕ → Mat) (ps : List (ℕ × ℕ)) (acc : Tensor3) : Tensor3 :=
  ps.foldl (fun a p => setSlice a p.1 (g p.2)) acc

lemma ensembleLoop_eq_sliceFold (body : ℕ → Mat × Mat) (ps : List (ℕ × ℕ)) :
    ∀ acc : Tensor3 × Tensor3,
      ensembleLoop body ps acc
        = (sliceFold (fun s => (body s).1) ps acc.1,
           sliceFold (fun s => (body s).2) ps acc.2) := by
  induction ps with
  | nil => intro acc; rfl
  | cons p ps ih => intro acc; exact ih _

lemma setSlice_length (t : Tensor3) (m : Mat) (i : ℕ) :
    (setSlice t i m).length = min t.length m.length := by
  simp [setSlice]

lemma setSlice_getD (t : Tensor3) (m : Mat) (i b : ℕ) (hb : b < t.length)
    (hb2 : b < m.length) :
    (setSlice t i m).getD b [] = (t.getD b []).set i (m.getD b []) :=
  getD_zipWith_lt _ t m b hb hb2 [] [] []

/-- Full characterisation of the ensemble's slice-assignment fold, iterated
over `l.enumFrom k`: shapes are preserved, positions below `k` keep their
initial value, and position `k + t` ends up holding `g` applied to the `t`-th
element of `l`. -/
lemma sliceFold_enumFrom_spec (g : ℕ → Mat) (B n L : ℕ)
    (hgB : ∀ s, (g s).length = B)
    (hgL : ∀ s b, b < B → ((g s).getD b []).length = L) :
    ∀ (l : List ℕ) (k : ℕ) (acc : Tensor3),
      acc.length = B →
      (∀ b, b < B → (acc.getD b []).length = n) →
      (∀ b i, b < B → i < n → ((acc.getD b []).getD i []).length = L) →
      k + l.length ≤ n →
      (sliceFold g (l.enumFrom k) acc).length = B ∧
      (∀ b, b < B → ((sliceFold g (l.enumFrom k) acc).getD b []).length = n) ∧
      (∀ b i, b < B → i < n →
        (((sliceFold g (l.enumFrom k) acc).getD b []).getD i []).length = L) ∧
      (∀ b j, b < B → j < k →
        ((sliceFold g (l.enumFrom k) acc).getD b []).getD j []
          = (acc.getD b []).getD j []) ∧
      (∀ b t, b < B → t < l.length →
        ((sliceFold g (l.enumFrom k) acc).getD b []).getD (k + t) []
          = (g (l.getD t 0)).getD b []) := by
  intro l
  induction l with
  | nil =>
    intro k acc h1 h2 h3 _
    exact ⟨h1, h2, h3, fun b j _ _ => rfl, fun b t _ ht => absurd ht (by simp)⟩
  | cons s l ih =>
    intro k acc hB hn hL hk
    have hkn : k < n := by simp at hk; omega
    have hstep : sliceFold g ((s :: l).enumFrom k) acc
        = sliceFold g (l.enumFrom (k + 1)) (setSlice acc k (g s)) := rfl
    have haccD : ∀ b, b < B →
        (setSlice acc k (g s)).getD b []
          = (acc.getD b []).set k ((g s).getD b []) := by
      intro b hb
      exact setSlice_getD acc (g s) k b (by rw [hB]; exact hb)
        (by rw [hgB]; exact hb)
    have hB2 : (setSlice acc k (g s)).length = B := by
      rw [setSlice_length, hB, hgB]; omega
    have hn2 : ∀ b, b < B → ((setSlice acc k (g s)).getD b []).length = n := by
      intro b hb
      rw [haccD b hb, List.length_set]
      exact hn b hb
    have hL2 : ∀ b i, b < B → i < n →
        (((setSlice acc k (g s)).getD b []).getD i []).length = L := by
      intro b i hb hi
      rw [haccD b hb]
      by_cases hik : i = k
      · subst hik
        rw [getD_set_self _ _ _ _ (by rw [hn b hb]; exact hi)]
        exact hgL s b hb
      · rw [getD_set_of_ne _ _ _ _ _ hik]
        exact hL b i hb hi
    have hk2 : k + 1 + l.length ≤ n := by simp at hk; omega
    obtain ⟨c1, c2, c3, c4, c5⟩ := ih (k + 1) (setSlice acc k (g s)) hB2 hn2 hL2 hk2
    rw [hstep]
    refine ⟨c1, c2, c3, ?_, ?_⟩
    · intro b j hb hj
      rw [c4 b j hb (by omega), haccD b hb,
        getD_set_of_ne _ _ _ _ _ (by omega)]
    · intro b t hb ht
      cases t with
      | zero =>
        have hkk : k + 0 = k := by omega
        rw [hkk, c4 b k hb (by omega), haccD b hb,
          getD_set_self _ _ _ _ (by rw [hn b hb]; exact hkn)]
        rfl
      | succ t =>
        have harith : k + (t + 1) = k + 1 + t := by omega
        rw [harith, c5 b t hb (by simpa using ht)]
        rfl

/-! ## Shape lemmas for the encoder forwards -/

lemma GatedConv2dResidualEncoder.forward_fst_length
    (e : GatedConv2dResidualEncoder) (m : Mat) :
    ((e.forward m).1).length = m.length := by
  simp [GatedConv2dResidualEncoder.forward, Linear.applyMat_length,
    catRows_length, reluHead_length]

lemma GatedConv2dResidualEncoder.forward_snd_length
    (e : GatedConv2dResidualEncoder) (m : Mat) :
    ((e.forward m).2).length = m.length := by
  simp [GatedConv2dResidualEncoder.forward, Linear.applyMat_length,
    catRows_length, reluHead_length, expStd_length, logVarHead_length]

lemma GatedConv2dResidualEncoder.init_forward_fst_row_length
    (S latent_dims h : ℕ) (m0 m1 mE v0 v1 vE : LinearWeights) (m : Mat)
    (b : ℕ) (hb : b < m.length) :
    ((((GatedConv2dResidualEncoder.init S latent_dims h m0 m1 mE v0 v1
      vE).forward m).1).getD b []).length = latent_dims := by
  unfold GatedConv2dResidualEncoder.forward GatedConv2dResidualEncoder.init
  rw [applyMat_getD _ _ b (by
    simpa [catRows_length, reluHead_length] using hb)]
  exact mkLinear_apply_length _ _ _ _

lemma GatedConv2dResidualEncoder.init_forward_snd_row_length
    (S latent_dims h : ℕ) (m0 m1 mE v0 v1 vE : LinearWeights) (m : Mat)
    (b : ℕ) (hb : b < m.length) :
    ((((GatedConv2dResidualEncoder.init S latent_dims h m0 m1 mE v0 v1
      vE).forward m).2).getD b []).length = latent_dims := by
  unfold GatedConv2dResidualEncoder.forward GatedConv2dResidualEncoder.init
  rw [expStd_getD _ b (by
    simpa [catRows_length, reluHead_length, logVarHead_length,
      Linear.applyMat_length] using hb)]
  rw [List.length_map]
  rw [logVarHead_getD _ _ b (by
    simpa [catRows_length, reluHead_length] using hb)]
  rw [List.length_map]
  exact mkLinear_apply_length _ _ _ _

/-! ## Shape lemmas for the ensemble loop body -/

lemma ensembleInit_hval (latent_dims h S : ℕ) (residuals : Bool)
    (conv : Tensor4 → Tensor4) (rw : ResWeights) (pw : PlainWeights) :
    (EnsembleGatedConv2dEncoders.init latent_dims h S residuals conv rw
      pw).encoder.hval = h := by
  cases residuals <;> rfl

lemma ensembleInit_convApply (latent_dims h S : ℕ) (residuals : Bool)
    (conv : Tensor4 → Tensor4) (rw : ResWeights) (pw : PlainWeights)
    (x : Tensor4) :
    (EnsembleGatedConv2dEncoders.init latent_dims h S residuals conv rw
      pw).encoder.convApply x = conv x := by
  cases residuals <;> rfl

lemma muStdBodyGated_init_fst_length (latent_dims h S : ℕ) (residuals : Bool)
    (conv : Tensor4 → Tensor4) (rw : ResWeights) (pw : PlainWeights)
    (F : Mat) (s : ℕ) :
    ((muStdBodyGated (EnsembleGatedConv2dEncoders.init latent_dims h S
      residuals conv rw pw) F s).1).length = F.length := by
  unfold muStdBodyGated EnsembleGatedConv2dEncoders.init
  cases residuals
  · simp [GEncoder.muEncL, Linear.applyMat_length, catRows_length,
      condMatrix_length]
  · simp [GEncoder.callRes, GatedConv2dResidualEncoder.forward_fst_length,
      catRows_length, condMatrix_length]

lemma muStdBodyGated_init_snd_length (latent_dims h S : ℕ) (residuals : Bool)
    (conv : Tensor4 → Tensor4) (rw : ResWeights) (pw : PlainWeights)
    (F : Mat) (s : ℕ) :
    ((muStdBodyGated (EnsembleGatedConv2dEncoders.init latent_dims h S
      residuals conv rw pw) F s).2).length = F.length := by
  unfold muStdBodyGated EnsembleGatedConv2dEncoders.init
  cases residuals
  · simp [GEncoder.logVarEncL, expStd_length, logVarHead_length,
      Linear.applyMat_length, catRows_length, condMatrix_length]
  · simp [GEncoder.callRes, GatedConv2dResidualEncoder.forward_snd_length,
      catRows_length, condMatrix_length]

lemma muStdBodyGated_init_fst_row_length (latent_dims h S : ℕ)
    (residuals : Bool) (conv : Tensor4 → Tensor4) (rw : ResWeights)
    (pw : PlainWeights) (F : Mat) (s : ℕ) (b : ℕ) (hb : b < F.length) :
    (((muStdBodyGated (EnsembleGatedConv2dEncoders.init latent_dims h S
      residuals conv rw pw) F s).1).getD b []).length = latent_dims := by
  unfold muStdBodyGated EnsembleGatedConv2dEncoders.init
  cases residuals
  · show (((GatedConv2dEncoder.init S latent_dims h conv pw.mu
      pw.lv).mu_enc.applyMat (catRows F (condMatrix S s F.length))).getD
      b []).length = latent_dims
    rw [applyMat_getD _ _ b (by
      simpa [catRows_length, condMatrix_length] using hb)]
    exact mkLinear_apply_length _ _ _ _
  · show ((((GatedConv2dResidualEncoder.init S latent_dims h rw.m0 rw.m1
      rw.mE rw.v0 rw.v1 rw.vE).forward (catRows F (condMatrix S s
      F.length))).1).getD b []).length = latent_dims
    exact GatedConv2dResidualEncoder.init_forward_fst_row_length _ _ _ _ _ _
      _ _ _ _ b (by simpa [catRows_length, condMatrix_length] using hb)

lemma muStdBodyGated_init_snd_row_length (latent_dims h S : ℕ)
    (residuals : Bool) (conv : Tensor4 → Tensor4) (rw : ResWeights)
    (pw : PlainWeights) (F : Mat) (s : ℕ) (b : ℕ) (hb : b < F.length) :
    (((muStdBodyGated (EnsembleGatedConv2dEncoders.init latent_dims h S
      residuals conv rw pw) F s).2).getD b []).length = latent_dims := by
  unfold muStdBodyGated EnsembleGatedConv2dEncoders.init
  cases residuals
  · show ((expStd (logVarHead (GatedConv2dEncoder.init S latent_dims h conv
      pw.mu pw.lv).log_var_enc (catRows F (condMatrix S s F.length)))).getD
      b []).length = latent_dims
    rw [expStd_getD _ b (by
      simpa [logVarHead_length, Linear.applyMat_length, catRows_length,
        condMatrix_length] using hb)]
    rw [List.length_map]
    rw [logVarHead_getD _ _ b (by
      simpa [catRows_length, condMatrix_length] using hb)]
    rw [List.length_map]
    exact mkLinear_apply_length _ _ _ _
  · show ((((GatedConv2dResidualEncoder.init S latent_dims h rw.m0 rw.m1
      rw.mE rw.v0 rw.v1 rw.vE).forward (catRows F (condMatrix S s
      F.length))).2).getD b []).length = latent_dims
    exact GatedConv2dResidualEncoder.init_forward_snd_row_length _ _ _ _ _ _
      _ _ _ _ b (by simpa [catRows_length, condMatrix_length] using hb)

/-! ## Shape lemmas for the zero initialisation -/

lemma zeros3_length (b n l : ℕ) : (zeros3 b n l).length = b := by
  simp [zeros3]

lemma zeros3_getD (B n l b : ℕ) (hb : b < B) :
    (zeros3 B n l).getD b [] = List.replicate n (List.replicate l (0 : ℝ)) :=
  getD_replicate_lt _ _ _ _ hb

lemma zeros3_plane_length (B n l b : ℕ) (hb : b < B) :
    ((zeros3 B n l).getD b []).length = n := by
  rw [zeros3_getD B n l b hb]; simp

lemma zeros3_row_length (B n l b i : ℕ) (hb : b < B) (hi : i < n) :
    (((zeros3 B n l).getD b []).getD i []).length = l := by
  rw [zeros3_getD B n l b hb, getD_replicate_lt _ _ _ _ hi]; simp

/-! ## Claim theorems -/

/-- Full specification of `EnsembleGatedConv2dEncoders.forward` on an
instance produced by `__init__`: shapes of the returned pair, order and
count of the active indices, and the value of every slice. -/
lemma ensembleGated_forward_spec
    (latent_dims h S : ℕ) (residuals : Bool) (conv : Tensor4 → Tensor4)
    (rw : ResWeights) (pw : PlainWeights)
    (E : EnsembleGatedConv2dEncoders)
    (hE : E = EnsembleGatedConv2dEncoders.init latent_dims h S residuals
      conv rw pw)
    (x : Tensor4) (cs : List ℤ)
    (h01 : ∀ c ∈ cs, c = 0 ∨ c = 1)
    (F : Mat) (hF : F = view2 h (conv x))
    (halign : F.length = x.length)
    (nA : ℕ) (hnA : nA = cs.sum.toNat) :
    ((E.forward x cs).1).length = x.length ∧
    ((E.forward x cs).2).length = x.length ∧
    (∀ b, b < x.length →
      (((E.forward x cs).1).getD b []).length = nA ∧
      (((E.forward x cs).2).getD b []).length = nA) ∧
    (∀ b i, b < x.length → i < nA →
      ((((E.forward x cs).1).getD b []).getD i []).length = latent_dims ∧
      ((((E.forward x cs).2).getD b []).getD i []).length = latent_dims) ∧
    (activeIndices cs).Pairwise (fun a b => a < b) ∧
    (activeIndices cs).length = nA ∧
    (∀ b i, b < x.length → i < nA →
      (((E.forward x cs).1).getD b []).getD i []
        = ((muStdBodyGated E F ((activeIndices cs).getD i 0)).1).getD b [] ∧
      (((E.forward x cs).2).getD b []).getD i []
        = ((muStdBodyGated E F ((activeIndices cs).getD i 0)).2).getD b []) := by
  subst hE hnA
  have hFE : view2 ((EnsembleGatedConv2dEncoders.init latent_dims h S
      residuals conv rw pw).encoder.hval)
      ((EnsembleGatedConv2dEncoders.init latent_dims h S residuals conv rw
        pw).encoder.convApply x) = F := by
    rw [ensembleInit_hval, ensembleInit_convApply]
    exact hF.symm
  have hforward : (EnsembleGatedConv2dEncoders.init latent_dims h S residuals
      conv rw pw).forward x cs
      = ensembleLoop (muStdBodyGated (EnsembleGatedConv2dEncoders.init
          latent_dims h S residuals conv rw pw) F)
        ((activeIndices cs).enumFrom 0)
        (zeros3 x.length cs.sum.toNat latent_dims,
         zeros3 x.length cs.sum.toNat latent_dims) := by
    simp only [EnsembleGatedConv2dEncoders.forward]
    rw [hFE]
    rfl
  rw [hforward, ensembleLoop_eq_sliceFold]
  have hsum : 0 + (activeIndices cs).length ≤ cs.sum.toNat := by
    rw [activeIndices_length cs h01]
    omega
  obtain ⟨d1, d2, d3, _, d5⟩ := sliceFold_enumFrom_spec
    (fun s => (muStdBodyGated (EnsembleGatedConv2dEncoders.init latent_dims h
      S residuals conv rw pw) F s).1)
    x.length cs.sum.toNat latent_dims
    (fun s => (muStdBodyGated_init_fst_length latent_dims h S residuals conv
      rw pw F s).trans halign)
    (fun s b hb => muStdBodyGated_init_fst_row_length latent_dims h S
      residuals conv rw pw F s b (halign ▸ hb))
    (activeIndices cs) 0 (zeros3 x.length cs.sum.toNat latent_dims)
    (zeros3_length _ _ _)
    (fun b hb => zeros3_plane_length _ _ _ b hb)
    (fun b i hb hi => zeros3_row_length _ _ _ b i hb hi)
    hsum
  obtain ⟨e1, e2, e3, _, e5⟩ := sliceFold_enumFrom_spec
    (fun s => (muStdBodyGated (EnsembleGatedConv2dEncoders.init latent_dims h
      S residuals conv rw pw) F s).2)
    x.length cs.sum.toNat latent_dims
    (fun s => (muStdBodyGated_init_snd_length latent_dims h S residuals conv
      rw pw F s).trans halign)
    (fun s b hb => muStdBodyGated_init_snd_row_length latent_dims h S
      residuals conv rw pw F s b (halign ▸ hb))
    (activeIndices cs) 0 (zeros3 x.length cs.sum.toNat latent_dims)
    (zeros3_length _ _ _)
    (fun b hb => zeros3_plane_length _ _ _ b hb)
    (fun b i hb hi => zeros3_row_length _ _ _ b i hb hi)
    hsum
  refine ⟨d1, e1, fun b hb => ⟨d2 b hb, e2 b hb⟩,
    fun b i hb hi => ⟨d3 b i hb hi, e3 b i hb hi⟩,
    activeIndices_pairwise cs, activeIndices_length cs h01,
    fun b i hb hi => ⟨?_, ?_⟩⟩
  · have hi2 : i < (activeIndices cs).length := by
      rw [activeIndices_length cs h01]
      exact hi
    have := d5 b i hb hi2
    rw [Nat.zero_add] at this
    exact this
  · have hi2 : i < (activeIndices cs).length := by
      rw [activeIndices_length cs h01]
      exact hi
    have := e5 b i hb hi2
    rw [Nat.zero_add] at this
    exact this

/-- C1: for every input batch `x` and every 0/1 components vector,
`EnsembleGatedConv2dEncoders.forward` returns a pair `(mu, std)` of tensors
of shape `(batch_size, n_A, latent_dims)` where `n_A` is the number of
entries equal to `1`; the active indices are strictly increasing, there are
exactly `n_A` of them, and for each `i < n_A` the slice
`(mu[:, i, :], std[:, i, :])` is the per-component encoding of `x`
(`muStdBodyGated`) conditioned on the `i`-th active component index. -/
theorem ensemble_gated_forward_shape_and_slices
    (latent_dims h S : ℕ) (residuals : Bool) (conv : Tensor4 → Tensor4)
    (rw : ResWeights) (pw : PlainWeights)
    (E : EnsembleGatedConv2dEncoders)
    (hE : E = EnsembleGatedConv2dEncoders.init latent_dims h S residuals
      conv rw pw)
    (x : Tensor4) (cs : List ℤ)
    (h01 : ∀ c ∈ cs, c = 0 ∨ c = 1)
    (F : Mat) (hF : F = view2 h (conv x))
    (halign : F.length = x.length)
    (nA : ℕ) (hnA : nA = cs.sum.toNat) :
    ((E.forward x cs).1).length = x.length ∧
    ((E.forward x cs).2).length = x.length ∧
    (∀ b, b < x.length →
      (((E.forward x cs).1).getD b []).length = nA ∧
      (((E.forward x cs).2).getD b []).length = nA) ∧
    (∀ b i, b < x.length → i < nA →
      ((((E.forward x cs).1).getD b []).getD i []).length = latent_dims ∧
      ((((E.forward x cs).2).getD b []).getD i []).length = latent_dims) ∧
    (activeIndices cs).Pairwise (fun a b => a < b) ∧
    (activeIndices cs).length = nA ∧
    (∀ b i, b < x.length → i < nA →
      (((E.forward x cs).1).getD b []).getD i []
        = ((muStdBodyGated E F ((activeIndices cs).getD i 0)).1).getD b [] ∧
      (((E.forward x cs).2).getD b []).getD i []
        = ((muStdBodyGated E F ((activeIndices cs).getD i 0)).2).getD b []) :=
  ensembleGated_forward_spec latent_dims h S residuals conv rw pw E hE x cs
    h01 F hF halign nA hnA

/-! ## Concrete instances used by the witnesses -/

/-- A concrete stand-in for the gated convolution stack. -/
def convW : Tensor4 → Tensor4 := fun _ => [[[[0]]]]

/-- All-zero weight draws for one linear layer. -/
def zeroLW : LinearWeights := ⟨fun _ _ => 0, fun _ => 0⟩

/-- All-zero weight draws for a residual encoder. -/
def rwW : ResWeights := ⟨zeroLW, zeroLW, zeroLW, zeroLW, zeroLW, zeroLW⟩

/-- All-zero weight draws for a plain encoder. -/
def pwW : PlainWeights := ⟨zeroLW, zeroLW⟩

/-- A concrete one-image batch. -/
def xW : Tensor4 := [[[[0]]]]

/-- Witness for C1 at a concrete instance (`h = S = latent_dims = 1`,
`residuals = False`, batch size 1, components `[1]`). -/
theorem ensemble_gated_forward_shape_and_slices_witness :
    (((EnsembleGatedConv2dEncoders.init 1 1 1 false convW rwW
      pwW).forward xW [1]).1).length = 1 ∧
    (((EnsembleGatedConv2dEncoders.init 1 1 1 false convW rwW
      pwW).forward xW [1]).2).length = 1 :=
  ⟨(ensemble_gated_forward_shape_and_slices 1 1 1 false convW rwW pwW _ rfl
      xW [1] (by decide) (view2 1 (convW xW)) rfl (by rfl) 1 (by decide)).1,
   (ensemble_gated_forward_shape_and_slices 1 1 1 false convW rwW pwW _ rfl
      xW [1] (by decide) (view2 1 (convW xW)) rfl (by rfl) 1 (by decide)).2.1⟩

/-- The loop body of the `residuals=False` ensemble coincides with
`GatedConv2dEncoder.forward` on the tiled one-hot of `s`. -/
lemma muStdBodyGated_false_eq_plain_forward (latent_dims h S : ℕ)
    (conv : Tensor4 → Tensor4) (rw : ResWeights) (pw : PlainWeights)
    (x : Tensor4) (s : ℕ)
    (halign : (view2 h (conv x)).length = x.length) :
    muStdBodyGated (EnsembleGatedConv2dEncoders.init latent_dims h S false
      conv rw pw) (view2 h (conv x)) s
      = (GatedConv2dEncoder.init S latent_dims h conv pw.mu pw.lv).forward x
        (condMatrix S s x.length) := by
  simp only [muStdBodyGated, EnsembleGatedConv2dEncoders.init,
    GatedConv2dEncoder.forward, GatedConv2dEncoder.init, GEncoder.muEncL,
    GEncoder.logVarEncL, Bool.false_eq_true, if_false]
  rw [halign]

/-- C2: with `residuals=False` and the same model weights, the per-component
slice computed inside `EnsembleGatedConv2dEncoders.forward` for the `i`-th
active component index `s` equals the pair returned by
`GatedConv2dEncoder.forward(x, one_hot(s)` tiled over the batch`)`. -/
theorem ensemble_residuals_false_refines_gated_encoder
    (latent_dims h S : ℕ) (conv : Tensor4 → Tensor4)
    (rw : ResWeights) (pw : PlainWeights)
    (E : EnsembleGatedConv2dEncoders)
    (hE : E = EnsembleGatedConv2dEncoders.init latent_dims h S false conv
      rw pw)
    (pe : GatedConv2dEncoder)
    (hpe : pe = GatedConv2dEncoder.init S latent_dims h conv pw.mu pw.lv)
    (x : Tensor4) (cs : List ℤ)
    (h01 : ∀ c ∈ cs, c = 0 ∨ c = 1)
    (halign : (view2 h (conv x)).length = x.length)
    (s i : ℕ) (hi : i < cs.sum.toNat)
    (hsi : (activeIndices cs).getD i 0 = s)
    (b : ℕ) (hb : b < x.length) :
    (((E.forward x cs).1).getD b []).getD i []
      = ((pe.forward x (condMatrix S s x.length)).1).getD b [] ∧
    (((E.forward x cs).2).getD b []).getD i []
      = ((pe.forward x (condMatrix S s x.length)).2).getD b [] := by
  subst hE hpe
  obtain ⟨-, -, -, -, -, -, hslice⟩ := ensembleGated_forward_spec latent_dims
    h S false conv rw pw _ rfl x cs h01 _ rfl halign _ rfl
  obtain ⟨h1, h2⟩ := hslice b i hb hi
  rw [hsi] at h1 h2
  rw [muStdBodyGated_false_eq_plain_forward latent_dims h S conv rw pw x s
    halign] at h1 h2
  exact ⟨h1, h2⟩

/-- Witness for C2 at a concrete instance. -/
theorem ensemble_residuals_false_refines_gated_encoder_witness :
    ((((EnsembleGatedConv2dEncoders.init 1 1 1 false convW rwW
      pwW).forward xW [1]).1).getD 0 []).getD 0 []
      = (((GatedConv2dEncoder.init 1 1 1 convW pwW.mu pwW.lv).forward xW
        (condMatrix 1 0 xW.length)).1).getD 0 [] :=
  (ensemble_residuals_false_refines_gated_encoder 1 1 1 convW rwW pwW _ rfl
    _ rfl xW [1] (by decide) (by rfl) 0 0 (by decide) (by decide) 0
    (by decide)).1

/-- C3: in every encoder forward pass in the module, the returned
standard-deviation tensor is obtained by exponentiating (half of) the
log-variance produced by the log-variance head: `GatedConv2dEncoder.forward`
(line 36), `GatedConv2dResidualEncoder.forward` (line 92), and the
`residuals=False` branch of the `EnsembleGatedConv2dEncoders` loop
(line 122). -/
theorem std_from_exp_half_log_var :
    (∀ (e : GatedConv2dEncoder) (x : Tensor4) (c : Mat),
      (e.forward x c).2
        = (logVarHead e.log_var_enc
            (catRows (view2 e.h (e.conv_layer x)) c)).map
            (fun r => r.map (fun v => Real.exp (0.5 * v)))) ∧
    (∀ (e : GatedConv2dResidualEncoder) (x_s : Mat),
      (e.forward x_s).2
        = (logVarHead e.log_var_enc
            (catRows x_s (reluHead e.log_var_1
              (catRows x_s (reluHead e.log_var_0 x_s))))).map
            (fun r => r.map (fun v => Real.exp (0.5 * v)))) ∧
    (∀ (E : EnsembleGatedConv2dEncoders) (F : Mat) (s : ℕ),
      E.residuals = false →
      (muStdBodyGated E F s).2
        = (logVarHead E.encoder.logVarEncL
            (catRows F (condMatrix E.S s F.length))).map
            (fun r => r.map (fun v => Real.exp (0.5 * v)))) := by
  refine ⟨fun e x c => rfl, fun e x_s => rfl, fun E F s hres => ?_⟩
  simp [muStdBodyGated, hres, expStd]

/-- Witness for C3 (its third conjunct carries the `residuals = false`
hypothesis), at a concrete instance. -/
theorem std_from_exp_half_log_var_witness :
    (muStdBodyGated (EnsembleGatedConv2dEncoders.init 1 1 1 false convW rwW
      pwW) [[0]] 0).2
      = (logVarHead (EnsembleGatedConv2dEncoders.init 1 1 1 false convW rwW
          pwW).encoder.logVarEncL
          (catRows [[0]] (condMatrix (EnsembleGatedConv2dEncoders.init 1 1 1
            false convW rwW pwW).S 0 (List.length ([[0]] : Mat))))).map
          (fun r => r.map (fun v => Real.exp (0.5 * v))) :=
  std_from_exp_half_log_var.2.2 (EnsembleGatedConv2dEncoders.init 1 1 1
    false convW rwW pwW) [[0]] 0 rfl

/-- A concrete residual encoder (`h = 1`, `S = 1`, `latent_dims = 1`) whose
mean head reads the component column of its input. -/
def eC4 : GatedConv2dResidualEncoder where
  h := 1
  S := 1
  mu_0 := ⟨[[0, 0]], [0]⟩
  mu_1 := ⟨[[0, 0, 0]], [0]⟩
  mu_enc := ⟨[[0, 1, 0]], [0]⟩
  log_var_0 := ⟨[[0, 0]], [0]⟩
  log_var_1 := ⟨[[0, 0, 0]], [0]⟩
  log_var_enc := ⟨[[0, 0, 0]], [0]⟩

/-- Counterexample to C4 as stated: `GatedConv2dResidualEncoder.forward`
(source line 80: `def forward(self, x_s)`) does not have the claimed
signature `forward(input_tensor, component_labels)` — it has a single tensor
parameter into which the component labels are already concatenated.  Two
calls whose single arguments agree on the feature column and differ only in
the trailing component column produce different outputs, so the component
conditioning enters through that single argument and not through a separate
second argument. -/
theorem residual_forward_single_argument_counterexample :
    (eC4.forward [[0, 0]]).1 ≠ (eC4.forward [[0, 1]]).1 := by
  have h0 : (eC4.forward [[0, 0]]).1 = [[0]] := by
    norm_num [eC4, GatedConv2dResidualEncoder.forward, reluHead, catRows,
      Linear.applyMat, Linear.apply, dot, relu]
  have h1 : (eC4.forward [[0, 1]]).1 = [[1]] := by
    norm_num [eC4, GatedConv2dResidualEncoder.forward, reluHead, catRows,
      Linear.applyMat, Linear.apply, dot, relu]
  rw [h0, h1]
  simp

/-- C4 (amended): `GatedConv2dEncoder`, `EnsembleGatedConv2dEncoders` and
`EnsembleResnetEncoders` have the call signature
`forward(input_tensor, component_labels)` and return the pair
`(mean_tensor, std_tensor)`; `GatedConv2dResidualEncoder` also returns such
a pair but its `forward` takes a single tensor argument `x_s`, the
representation with the component labels already concatenated. -/
theorem forward_signatures_and_return_pairs :
    (∀ (e : GatedConv2dEncoder) (x : Tensor4) (c : Mat),
      e.forward x c
        = (e.mu_enc.applyMat (catRows (view2 e.h (e.conv_layer x)) c),
           expStd (logVarHead e.log_var_enc
             (catRows (view2 e.h (e.conv_layer x)) c)))) ∧
    (∀ (e : GatedConv2dResidualEncoder) (x_s : Mat),
      e.forward x_s
        = (e.mu_enc.applyMat (catRows x_s (reluHead e.mu_1
             (catRows x_s (reluHead e.mu_0 x_s)))),
           expStd (logVarHead e.log_var_enc (catRows x_s (reluHead
             e.log_var_1 (catRows x_s (reluHead e.log_var_0 x_s))))))) ∧
    (∀ (E : EnsembleGatedConv2dEncoders) (x : Tensor4) (cs : List ℤ),
      E.forward x cs
        = (sliceFold (fun s => (muStdBodyGated E
              (view2 E.encoder.hval (E.encoder.convApply x)) s).1)
            (activeIndices cs).enum
            (zeros3 x.length cs.sum.toNat E.latent_dims),
           sliceFold (fun s => (muStdBodyGated E
              (view2 E.encoder.hval (E.encoder.convApply x)) s).2)
            (activeIndices cs).enum
            (zeros3 x.length cs.sum.toNat E.latent_dims))) ∧
    (∀ (E : EnsembleResnetEncoders) (x : Tensor4) (cs : List ℤ),
      E.forward x cs
        = (sliceFold (fun s => (muStdBodyResnet E (E.encoder.conv_layer x)
              s).1)
            (activeIndices cs).enum
            (zeros3 (E.encoder.conv_layer x).length cs.sum.toNat
              E.latent_dims),
           sliceFold (fun s => (muStdBodyResnet E (E.encoder.conv_layer x)
              s).2)
            (activeIndices cs).enum
            (zeros3 (E.encoder.conv_layer x).length cs.sum.toNat
              E.latent_dims))) := by
  refine ⟨fun e x c => rfl, fun e x_s => rfl, fun E x cs => ?_, fun E x cs => ?_⟩
  · exact ensembleLoop_eq_sliceFold _ _ _
  · exact ensembleLoop_eq_sliceFold _ _ _

/-- C5: `GatedConv2dEncoder.forward(x, c)` computes its result by exactly
these steps in this order: gated convolution stack, flatten to `h` features
per sample, concatenate the component vector along the last dimension, mean
head, and log-variance head followed by the exponentiation into the standard
deviation. -/
theorem gated_encoder_pipeline_steps (e : GatedConv2dEncoder) (x : Tensor4)
    (c : Mat) :
    e.forward x c
      = (let convOut := e.conv_layer x
         let feats := view2 e.h convOut
         let joined := catRows feats c
         let mu := e.mu_enc.applyMat joined
         let std := expStd (logVarHead e.log_var_enc joined)
         (mu, std)) := rfl

/-- C6: the conditioning tensor concatenated to the features in both
ensemble loops is exactly the one-hot encoding of the active index `s` over
the fixed set of `S` components, replicated once per sample: both loop
bodies concatenate `condMatrix`, `condMatrix` is the batch-replicated
`one_hot`, and `one_hot s S` has length `S` with entry `1` at `s` and `0`
elsewhere. -/
theorem ensemble_conditioning_is_tiled_one_hot (S s B : ℕ) (hs : s < S) :
    condMatrix S s B = List.replicate B (one_hot s S) ∧
    (one_hot s S).length = S ∧
    (∀ j, j < S → (one_hot s S).getD j 0 = if j = s then (1 : ℝ) else 0) ∧
    (∀ (E : EnsembleGatedConv2dEncoders) (F : Mat),
      muStdBodyGated E F s
        = (if E.residuals then
            E.encoder.callRes (catRows F (condMatrix E.S s F.length))
          else
            (E.encoder.muEncL.applyMat (catRows F (condMatrix E.S s
              F.length)),
             expStd (logVarHead E.encoder.logVarEncL (catRows F (condMatrix
               E.S s F.length)))))) ∧
    (∀ (E : EnsembleResnetEncoders) (F : Mat),
      muStdBodyResnet E F s
        = (if E.residuals then
            E.encoder.core.forward (catRows F (condMatrix E.S s F.length))
          else
            (E.encoder.core.mu_enc.applyMat (catRows F (condMatrix E.S s
              F.length)),
             expStd (logVarHead E.encoder.core.log_var_enc (catRows F
               (condMatrix E.S s F.length)))))) := by
  refine ⟨rfl, by simp [one_hot], ?_, fun E F => rfl, fun E F => rfl⟩
  intro j hj
  unfold one_hot
  rw [getD_map_lt _ _ j (by simpa using hj) 0 0]
  rw [List.getD_eq_getElem?_getD, List.getElem?_range hj]
  rfl

/-- Witness for C6 at `S = 2`, `s = 1`, `B = 3`. -/
theorem ensemble_conditioning_is_tiled_one_hot_witness :
    condMatrix 2 1 3 = List.replicate 3 (one_hot 1 2) ∧
    (one_hot 1 2).length = 2 ∧
    (∀ j, j < 2 → (one_hot 1 2).getD j 0 = if j = 1 then (1 : ℝ) else 0) :=
  have h := ensemble_conditioning_is_tiled_one_hot 2 1 3 (by decide)
  ⟨h.1, h.2.1, h.2.2.1⟩

/-- Statement-by-statement state-threading model of
`GatedConv2dEncoder.forward`: every source statement only binds locals and
reads `self`, so the module record is passed through unchanged and returned
alongside the result pair. -/
noncomputable def GatedConv2dEncoder.forwardS (e : GatedConv2dEncoder)
    (x : Tensor4) (component : Mat) : GatedConv2dEncoder × (Mat × Mat) :=
  let s0 := e
  let x1 := s0.conv_layer x
  let x2 := view2 s0.h x1
  let x3 := catRows x2 component
  let mu := s0.mu_enc.applyMat x3
  let std := expStd (logVarHead s0.log_var_enc x3)
  (s0, (mu, std))

/-- Statement-by-statement state-threading model of
`EnsembleGatedConv2dEncoders.forward`: the loop re-reads `self` on every
iteration (for `self.residuals`, `self.encoder`, `self.S`) and assigns only
into the freshly allocated local tensors `mu` and `std`. -/
noncomputable def EnsembleGatedConv2dEncoders.forwardS
    (E : EnsembleGatedConv2dEncoders) (x : Tensor4) (cs : List ℤ) :
    EnsembleGatedConv2dEncoders × (Tensor3 × Tensor3) :=
  let s0 := E
  let nA := cs.sum.toNat
  let mu0 := zeros3 x.length nA s0.latent_dims
  let std0 := zeros3 x.length nA s0.latent_dims
  let F := view2 s0.encoder.hval (s0.encoder.convApply x)
  let loopOut := ((activeIndices cs).enum).foldl
    (fun (acc : EnsembleGatedConv2dEncoders × (Tensor3 × Tensor3)) p =>
      (acc.1, setSlice acc.2.1 p.1 (muStdBodyGated acc.1 F p.2).1,
        setSlice acc.2.2 p.1 (muStdBodyGated acc.1 F p.2).2))
    (s0, (mu0, std0))
  (loopOut.1, loopOut.2)

lemma threaded_loop_keeps_module (F : Mat) (ps : List (ℕ × ℕ)) :
    ∀ (E : EnsembleGatedConv2dEncoders) (acc : Tensor3 × Tensor3),
      ps.foldl
        (fun (a : EnsembleGatedConv2dEncoders × (Tensor3 × Tensor3)) p =>
          (a.1, setSlice a.2.1 p.1 (muStdBodyGated a.1 F p.2).1,
            setSlice a.2.2 p.1 (muStdBodyGated a.1 F p.2).2))
        (E, acc)
      = (E, ensembleLoop (muStdBodyGated E F) ps acc) := by
  induction ps with
  | nil => intro E acc; rfl
  | cons p ps ih =>
    intro E acc
    exact ih E _

/-- C7: a forward pass mutates no module state: threading the module record
through every statement of `GatedConv2dEncoder.forward` and of
`EnsembleGatedConv2dEncoders.forward` returns the record unchanged, and the
only produced values are the returned mean and standard-deviation
tensors, which agree with the pure `forward`. -/
theorem forward_mutates_no_module_state :
    (∀ (e : GatedConv2dEncoder) (x : Tensor4) (c : Mat),
      (e.forwardS x c).1 = e ∧ (e.forwardS x c).2 = e.forward x c) ∧
    (∀ (E : EnsembleGatedConv2dEncoders) (x : Tensor4) (cs : List ℤ),
      (E.forwardS x cs).1 = E ∧ (E.forwardS x cs).2 = E.forward x cs) := by
  refine ⟨fun e x c => ⟨rfl, rfl⟩, fun E x cs => ?_⟩
  simp only [EnsembleGatedConv2dEncoders.forwardS]
  rw [threaded_loop_keeps_module]
  exact ⟨rfl, rfl⟩

/-- The type of program-defined errors of `models.encoders`: the module
defines no custom error class, so this type has no constructors. -/
inductive EncodersError : Type

/-- Error-monad translation of `GatedConv2dEncoder.forward`: no statement on
any path raises, so the translation injects the pure result with `.ok`. -/
noncomputable def GatedConv2dEncoder.forwardE (e : GatedConv2dEncoder)
    (x : Tensor4) (c : Mat) : Except EncodersError (Mat × Mat) :=
  .ok (e.forward x c)

/-- Error-monad translation of `GatedConv2dResidualEncoder.forward`. -/
noncomputable def GatedConv2dResidualEncoder.forwardE
    (e : GatedConv2dResidualEncoder) (x_s : Mat) :
    Except EncodersError (Mat × Mat) :=
  .ok (e.forward x_s)

/-- Error-monad translation of `EnsembleGatedConv2dEncoders.forward`. -/
noncomputable def EnsembleGatedConv2dEncoders.forwardE
    (E : EnsembleGatedConv2dEncoders) (x : Tensor4) (cs : List ℤ) :
    Except EncodersError (Tensor3 × Tensor3) :=
  .ok (E.forward x cs)

/-- Error-monad translation of `EnsembleResnetEncoders.forward`. -/
noncomputable def EnsembleResnetEncoders.forwardE
    (E : EnsembleResnetEncoders) (x : Tensor4) (cs : List ℤ) :
    Except EncodersError (Tensor3 × Tensor3) :=
  .ok (E.forward x cs)

/-- C8: no operation in the module raises a program-defined error: the type
of module-defined errors is uninhabited, and the error-monad translation of
every forward method returns `.ok` of the pure result on every input (the
only possible failures are the tensor framework's own shape errors, which
are outside the module). -/
theorem no_program_defined_errors :
    (∀ err : EncodersError, False) ∧
    (∀ (e : GatedConv2dEncoder) (x : Tensor4) (c : Mat),
      e.forwardE x c = .ok (e.forward x c)) ∧
    (∀ (e : GatedConv2dResidualEncoder) (x_s : Mat),
      e.forwardE x_s = .ok (e.forward x_s)) ∧
    (∀ (E : EnsembleGatedConv2dEncoders) (x : Tensor4) (cs : List ℤ),
      E.forwardE x cs = .ok (E.forward x cs)) ∧
    (∀ (E : EnsembleResnetEncoders) (x : Tensor4) (cs : List ℤ),
      E.forwardE x cs = .ok (E.forward x cs)) := by
  refine ⟨?_, fun _ _ _ => rfl, fun _ _ => rfl, fun _ _ _ => rfl,
    fun _ _ _ => rfl⟩
  intro err
  cases err

/-- Every entry of `exp(0.5 * log_var_head(..))` lies in
`[exp(-3), exp(1)]` and is strictly positive, because the head ends in
`Hardtanh(-6, 2)`. -/
lemma expStd_logVarHead_mem_bounds (l : Linear) (m : Mat) (row : Vec)
    (hrow : row ∈ expStd (logVarHead l m)) (v : ℝ) (hv : v ∈ row) :
    Real.exp (-3) ≤ v ∧ v ≤ Real.exp 1 ∧ 0 < v := by
  obtain ⟨r1, hr1, rfl⟩ := List.mem_map.mp hrow
  obtain ⟨w, hw, rfl⟩ := List.mem_map.mp hv
  obtain ⟨r0, hr0, rfl⟩ := List.mem_map.mp hr1
  obtain ⟨u, hu, rfl⟩ := List.mem_map.mp hw
  have h1 : (-6 : ℝ) ≤ hardtanh (-6) 2 u := le_max_left _ _
  have h2 : hardtanh (-6) 2 u ≤ 2 := max_le (by norm_num) (min_le_left _ _)
  refine ⟨Real.exp_le_exp.mpr (by linarith), Real.exp_le_exp.mpr (by linarith),
    Real.exp_pos _⟩

/-- C9: every entry of the standard-deviation tensor returned by
`GatedConv2dEncoder.forward` or `GatedConv2dResidualEncoder.forward` lies in
the closed interval `[exp(-3), exp(1)]` (the log-variance head ends in
`Hardtanh` clamping to `[-6, 2]` and `std = exp(0.5 * log_var)`); in
particular the standard deviation is strictly positive. -/
theorem std_entries_bounded :
    (∀ (e : GatedConv2dEncoder) (x : Tensor4) (c : Mat) (row : Vec),
      row ∈ (e.forward x c).2 → ∀ v ∈ row,
        Real.exp (-3) ≤ v ∧ v ≤ Real.exp 1 ∧ 0 < v) ∧
    (∀ (e : GatedConv2dResidualEncoder) (x_s : Mat) (row : Vec),
      row ∈ (e.forward x_s).2 → ∀ v ∈ row,
        Real.exp (-3) ≤ v ∧ v ≤ Real.exp 1 ∧ 0 < v) :=
  ⟨fun e x c row hrow v hv => expStd_logVarHead_mem_bounds _ _ row hrow v hv,
   fun e x_s row hrow v hv => expStd_logVarHead_mem_bounds _ _ row hrow v hv⟩

/-- The standard-deviation tensor of a concrete one-sample forward pass. -/
noncomputable def stdW9 : Mat :=
  ((GatedConv2dEncoder.init 1 1 1 convW pwW.mu pwW.lv).forward xW [[1]]).2

/-- Its unique row. -/
noncomputable def rowW9 : Vec := stdW9.getD 0 []

/-- Its unique entry. -/
noncomputable def vW9 : ℝ := rowW9.getD 0 0

/-- Witness for C9 at a concrete one-sample forward pass. -/
theorem std_entries_bounded_witness :
    Real.exp (-3) ≤ vW9 ∧ vW9 ≤ Real.exp 1 ∧ 0 < vW9 :=
  std_entries_bounded.1 (GatedConv2dEncoder.init 1 1 1 convW pwW.mu pwW.lv)
    xW [[1]] rowW9
    (by
      show rowW9 ∈ stdW9
      have h : stdW9 = [rowW9] := rfl
      rw [h]
      exact List.mem_singleton.mpr rfl)
    vW9
    (by
      have h : rowW9 = [vW9] := rfl
      rw [h]
      exact List.mem_singleton.mpr rfl)

/-- C10: every `EnsembleResnetEncoders` built by its `__init__` has
`residuals = True` (the parent constructor is called with its default and
the value is never overwritten), so in its `forward` the non-residual
else-branch is unreachable: the loop body for every active component is
exactly the residual encoder call on the concatenated features. -/
theorem resnet_ensemble_residuals_always_true
    (latent_dims S : ℕ) (resnet : Tensor4 → Mat) (rw : ResWeights)
    (discardedConv : Tensor4 → Tensor4) (discardedRw : ResWeights)
    (discardedPw : PlainWeights)
    (E : EnsembleResnetEncoders)
    (hE : E = EnsembleResnetEncoders.init latent_dims S resnet rw
      discardedConv discardedRw discardedPw) :
    E.residuals = true ∧
    (∀ (x : Tensor4) (cs : List ℤ),
      E.forward x cs
        = ensembleLoop
            (fun s => E.encoder.core.forward
              (catRows (E.encoder.conv_layer x)
                (condMatrix E.S s (E.encoder.conv_layer x).length)))
            (activeIndices cs).enum
            (zeros3 (E.encoder.conv_layer x).length cs.sum.toNat
              E.latent_dims,
             zeros3 (E.encoder.conv_layer x).length cs.sum.toNat
              E.latent_dims)) := by
  subst hE
  exact ⟨rfl, fun x cs => rfl⟩

/-- Witness for C10 at a concrete instance. -/
theorem resnet_ensemble_residuals_always_true_witness :
    (EnsembleResnetEncoders.init 1 1 (fun _ => [[0]]) rwW convW rwW
      pwW).residuals = true :=
  (resnet_ensemble_residuals_always_true 1 1 (fun _ => [[0]]) rwW convW rwW
    pwW _ rfl).1
